import Mathlib

/-!
A formal model of the chipset scheduling / DMA core of the vAmiga emulator:
the disk controller FIFO and state machine (`DiskController.cpp`), the Copper
coprocessor (`Copper.cpp`), and the Agnus scheduler loop and DMA jump tables
(`Agnus.cpp`).  Machine integers are modelled as `Nat` (with explicit masking
where the source relies on wrap-around) and `Int` for signed cycle counters.
-/

/-! ## Disk controller (src/Amiga/Computer/Paula/DiskController.cpp) -/

/-- The drive-DMA states of the disk controller (enum `DriveState`). -/
inductive DriveState where
  | DRIVE_DMA_OFF
  | DRIVE_DMA_WAIT
  | DRIVE_DMA_READ
  | DRIVE_DMA_WRITE
  | DRIVE_DMA_FLUSH
deriving DecidableEq, Repr

open DriveState

/-- The state of the disk controller that the modelled functions touch.
`fifo` is a `uint64` holding up to six bytes, `fifoCount` a `uint8`,
`dsklen`/`dsksync` are `uint16`, `prb` a `uint8`, `selected` an `int8`
(`-1` when no drive is selected), `incomingCycle` a 64-bit cycle count. -/
structure DiskController where
  fifo : Nat
  fifoCount : Nat
  state : DriveState
  dsklen : Nat
  dsksync : Nat
  syncFlag : Bool
  incoming : Nat
  incomingCycle : Int
  prb : Nat
  selected : Int
deriving DecidableEq, Repr

/-- `DiskController::clearFifo`. -/
def clearFifo (c : DiskController) : DiskController :=
  { c with fifo := 0, fifoCount := 0 }

/-- `DiskController::readFifo`: removes and returns the oldest byte,
`fifoCount--; return (fifo >> (8 * fifoCount)) & 0xFF;`. -/
def readFifo (c : DiskController) : Nat × DiskController :=
  let fifoCount := c.fifoCount - 1
  (c.fifo >>> (8 * fifoCount) &&& 0xFF, { c with fifoCount := fifoCount })

/-- `DiskController::writeFifo`: if the FIFO is full the two oldest bytes are
dropped, then `fifo = (fifo << 8) | byte; fifoCount++;` (on a `uint64`,
hence the reduction modulo `2 ^ 64`). -/
def writeFifo (c : DiskController) (byte : Nat) : DiskController :=
  let fifoCount := if c.fifoCount == 6 then c.fifoCount - 2 else c.fifoCount
  { c with fifo := ((c.fifo <<< 8) ||| byte) % 2 ^ 64, fifoCount := fifoCount + 1 }

/-- Modelled from the spec: `fifoIsEmpty` (declared in the DiskController
header, which is not part of src/) is true iff the FIFO holds no byte. -/
def fifoIsEmpty (c : DiskController) : Bool :=
  c.fifoCount == 0

/-- Modelled from the spec: `fifoHasWord` (declared in the DiskController
header, which is not part of src/) is true iff `fifoCount >= 2`. -/
def fifoHasWord (c : DiskController) : Bool :=
  decide (2 ≤ c.fifoCount)

/-- `DiskController::compareFifo`:
`return fifoHasWord() && (fifo & 0xFFFF) == word;`. -/
def compareFifo (c : DiskController) (word : Nat) : Bool :=
  fifoHasWord c && (c.fifo &&& 0xFFFF == word)

/-- Effect of `DiskController::performTurboDMA` on the controller state.
The words moved between drive and memory, the call to `findSyncMark` and the
delayed `INT_DSKBLK` interrupt only touch collaborators outside the modelled
state; on the controller itself the function switches `state` to
`DRIVE_DMA_OFF` whenever `dsklen & 0x3FFF` is nonzero and the state is one of
WAIT / READ / WRITE, and leaves everything else unchanged. -/
def performTurboDMA (c : DiskController) : DiskController :=
  if c.dsklen &&& 0x3FFF == 0 then c
  else
    match c.state with
    | DRIVE_DMA_WAIT => { c with state := DRIVE_DMA_OFF }
    | DRIVE_DMA_READ => { c with state := DRIVE_DMA_OFF }
    | DRIVE_DMA_WRITE => { c with state := DRIVE_DMA_OFF }
    | _ => c

/-- `DiskController::pokeDSKLEN`.  `adkcon` is Paula's ADKCON register
(`GET_BIT(paula->adkcon, 10)` is the WORDSYNC bit); `turboDrive` is true iff
a drive is selected and `drive->isTurboDrive()` holds, in which case the
final `performTurboDMA(drive)` call runs. -/
def pokeDSKLEN (c : DiskController) (newDskLen adkcon : Nat) (turboDrive : Bool) :
    DiskController :=
  let oldDsklen := c.dsklen
  let c := { c with dsklen := newDskLen }
  let c :=
    if newDskLen &&& 0x8000 == 0 then
      clearFifo { c with state := DRIVE_DMA_OFF }
    else if oldDsklen &&& newDskLen &&& 0x8000 != 0 then
      if oldDsklen &&& newDskLen &&& 0x4000 != 0 then
        clearFifo { c with state := DRIVE_DMA_WRITE }
      else if adkcon.testBit 10 then
        clearFifo { c with state := DRIVE_DMA_WAIT }
      else
        clearFifo { c with state := DRIVE_DMA_READ }
    else c
  if turboDrive then performTurboDMA c else c

/-- `DiskController::executeFifo`.  `drive` is `none` when
`getSelectedDrive()` returns NULL (i.e. `selected < 0`); otherwise it carries
the byte the selected drive's `readHead()` would deliver.  `clock` is
`agnus->clock`.  The second component records whether `INT_DSKSYN` was
raised.  The calls `drive->rotate()` and `drive->writeHead(..)` only change
drive-side state and are therefore invisible in the result. -/
def executeFifo (c : DiskController) (drive : Option Nat) (clock : Int) :
    DiskController × Bool :=
  match drive with
  | none => (c, false)
  | some byte =>
    match c.state with
    | DRIVE_DMA_OFF => (c, false)
    | DRIVE_DMA_WAIT =>
        let c := { c with incoming := byte, incomingCycle := clock }
        let c := writeFifo c byte
        let syncFlag := compareFifo c c.dsksync
        let c := { c with syncFlag := syncFlag }
        if syncFlag then (clearFifo { c with state := DRIVE_DMA_READ }, true)
        else (c, false)
    | DRIVE_DMA_READ =>
        let c := { c with incoming := byte, incomingCycle := clock }
        let c := writeFifo c byte
        let syncFlag := compareFifo c c.dsksync
        let c := { c with syncFlag := syncFlag }
        if syncFlag then (c, true) else (c, false)
    | DRIVE_DMA_WRITE =>
        if fifoIsEmpty c then (c, false) else ((readFifo c).2, false)
    | DRIVE_DMA_FLUSH =>
        if fifoIsEmpty c then ({ c with state := DRIVE_DMA_OFF }, false)
        else ((readFifo c).2, false)

/-- `DiskController::_reset`.  The framework macro `RESET_SNAPSHOT_ITEMS`
(defined outside src/) zeroes every snapshot field; afterwards the function
assigns `prb = 0xFF; selected = -1; dsksync = 0x4489;`. -/
def DiskController.reset : DiskController :=
  let zeroed : DiskController :=
    { fifo := 0, fifoCount := 0, state := DRIVE_DMA_OFF, dsklen := 0,
      dsksync := 0, syncFlag := false, incoming := 0, incomingCycle := 0,
      prb := 0, selected := 0 }
  { zeroed with prb := 0xFF, selected := -1, dsksync := 0x4489 }

/-- Pushing a list of bytes into the FIFO, oldest first (successive
`writeFifo` calls). -/
def pushAll (c : DiskController) (bs : List Nat) : DiskController :=
  bs.foldl writeFifo c

/-- Popping `n` bytes from the FIFO (successive `readFifo` calls). -/
def readAll : DiskController → Nat → List Nat × DiskController
  | c, 0 => ([], c)
  | c, n + 1 =>
    let r := readFifo c
    let rest := readAll r.2 n
    (r.1 :: rest.1, rest.2)

/-- The number a big-endian byte list denotes. -/
def bytesVal (bs : List Nat) : Nat :=
  bs.foldl (fun a b => 256 * a + b) 0

/-! ## Copper coprocessor (src/Amiga/Computer/Agnus/Copper.cpp) -/

/-- The Copper scheduling states.  The numeric `EventID` values live in a
header outside src/, so the states are modelled symbolically;
`STATE_ZERO` stands for the literal `state = 0` that `cancelEvent` writes. -/
inductive CopEventID where
  | COPPER_REQUEST_DMA
  | COPPER_FETCH
  | COPPER_MOVE
  | COPPER_WAIT_OR_SKIP
  | COPPER_JMP1
  | COPPER_JMP2
  | STATE_ZERO
deriving DecidableEq, Repr

/-- The Copper state (fields of `class Copper`).  `coplc0`/`coplc1` are the
two program pointers, `copins1`/`copins2` the latched instruction words,
`coppc` the program counter. -/
structure Copper where
  state : CopEventID
  skip : Bool
  coplc0 : Nat
  coplc1 : Nat
  cdang : Bool
  copins1 : Nat
  copins2 : Nat
  coppc : Nat
deriving DecidableEq, Repr

/-- `Copper::illegalAddress`:
`address &= 0x1FE; return address >= (cdang ? 0x40 : 0x80);`. -/
def illegalAddress (cop : Copper) (address : Nat) : Bool :=
  let address := address &&& 0x1FE
  decide (address ≥ if cop.cdang then 0x40 else 0x80)

/-- `Copper::runComparator(beam, waitpos, mask)`: only the low 16 beam bits
enter the comparison, `return (beam & mask) >= (waitpos & mask);`. -/
def runComparator (beam waitpos mask : Nat) : Bool :=
  let beam := beam &&& 0xFFFF
  decide (waitpos &&& mask ≤ beam &&& mask)

/-- `Copper::getVPHP`: `copins1 & 0xFFFE`. -/
def getVPHP (cop : Copper) : Nat :=
  cop.copins1 &&& 0xFFFE

/-- `Copper::getVMHM`: `copins2 & 0x7FFE`. -/
def getVMHM (cop : Copper) : Nat :=
  cop.copins2 &&& 0x7FFE

/-- The one-argument overload `Copper::runComparator(waitpos)`: it forwards
`runComparator(amiga->dma.beam, waitpos, getVMHM())` — the argument lands in
the waitpos slot of the three-argument comparator. -/
def runComparator1 (cop : Copper) (beam waitpos : Nat) : Bool :=
  runComparator beam waitpos (getVMHM cop)

/-- The loop of `Copper::nextTriggerPosition`, fuel-indexed: fuel `k + 1`
runs the iteration with `i = k` and `pos & ~(1 << i)` is the 32-bit
bit-clear of the trial position; a failed condition breaks out of the loop
and returns the current `pos`. -/
def ntpLoop (cop : Copper) (beam : Nat) : Nat → Nat → Nat
  | pos, 0 => pos
  | pos, k + 1 =>
    let newPos := pos &&& (0xFFFFFFFF ^^^ (1 <<< k))
    if beam ≤ newPos ∧ runComparator1 cop beam newPos = true then
      ntpLoop cop beam newPos k
    else pos

/-- `Copper::nextTriggerPosition`: starts from `pos = 0x1FFFF` and clears
bits from `i = 16` down to `i = 0` while both conditions keep holding. -/
def nextTriggerPosition (cop : Copper) (beam : Nat) : Nat :=
  ntpLoop cop beam 0x1FFFF 17

/-- Result of one `Copper::processEvent(COPPER_MOVE)` call: the new Copper
state, the `pokeCustom16(reg, value)` register write if one was issued,
whether `cancelEvent()` halted the Copper, and the event type passed to
`scheduleEventRel` if the slot was rescheduled. -/
structure MoveResult where
  copper : Copper
  regWrite : Option (Nat × Nat)
  slotCancelled : Bool
  scheduled : Option CopEventID
deriving DecidableEq, Repr

/-- `Copper::processEvent` for `COPPER_MOVE`.  `mem` is `amiga->mem.peek16`
(a 16-bit read), `canHaveBus` is `amiga->dma.copperCanHaveBus()`.  The
source performs the register write unconditionally (`if (1)`, with
`if (!skip)` left commented out), and `skip` is neither consulted nor
cleared. -/
def processMove (cop : Copper) (mem : Nat → Nat) (canHaveBus : Bool) : MoveResult :=
  if canHaveBus then
    let cop := { cop with copins2 := mem cop.coppc &&& 0xFFFF }
    let cop := { cop with coppc := (cop.coppc + 2) &&& 0x7FFFE }
    let reg := cop.copins1 &&& 0x1FE
    if illegalAddress cop reg then
      { copper := { cop with state := CopEventID.STATE_ZERO },
        regWrite := none, slotCancelled := true, scheduled := none }
    else
      { copper := { cop with state := CopEventID.COPPER_FETCH },
        regWrite := some (reg, cop.copins2), slotCancelled := false,
        scheduled := some CopEventID.COPPER_FETCH }
  else
    { copper := cop, regWrite := none, slotCancelled := false, scheduled := none }

/-- `Copper::processEvent` for `COPPER_FETCH`: loads `copins1`, advances the
PC and schedules `COPPER_MOVE` or `COPPER_WAIT_OR_SKIP` depending on the low
bit of the first instruction word. -/
def processFetch (cop : Copper) (mem : Nat → Nat) (canHaveBus : Bool) :
    Copper × Option CopEventID :=
  if canHaveBus then
    let cop := { cop with copins1 := mem cop.coppc &&& 0xFFFF }
    let cop := { cop with coppc := (cop.coppc + 2) &&& 0x7FFFE }
    let next :=
      if cop.copins1 &&& 1 == 0 then CopEventID.COPPER_MOVE
      else CopEventID.COPPER_WAIT_OR_SKIP
    ({ cop with state := next }, some next)
  else (cop, none)

/-- `Copper::processEvent` for `COPPER_WAIT_OR_SKIP`.  `beam` is
`amiga->dma.beam`.  The WAIT branch of the source is empty; the SKIP branch
sets the `skip` flag when the beam comparison
`(beam & mask) >= (compare & mask)` already holds. -/
def processWaitOrSkip (cop : Copper) (mem : Nat → Nat) (canHaveBus : Bool)
    (beam : Nat) : Copper :=
  if canHaveBus then
    let cop := { cop with copins2 := mem cop.coppc &&& 0xFFFF }
    let cop := { cop with coppc := (cop.coppc + 2) &&& 0x7FFFE }
    if cop.copins1 &&& 1 ≠ 0 ∧ cop.copins2 &&& 1 == 0 then
      cop
    else
      let compare := cop.copins1 &&& 0xFFFE
      let mask := cop.copins2 &&& 0x7FFE
      let beam := beam &&& 0xFFFF
      if compare &&& mask ≤ beam &&& mask then { cop with skip := true } else cop
  else cop

/-! ## Agnus scheduler and jump tables (src/Emulator/Agnus/Agnus.cpp) -/

/-- The last horizontal position of a scanline, `0xE2` (used throughout
Agnus.cpp, e.g. `pos.h = pos.h < HPOS_MAX ? pos.h + 1 : 0`). -/
def HPOS_MAX : Nat := 0xE2

/-- The number of horizontal positions per scanline, `0xE3`. -/
def HPOS_CNT : Nat := 0xE3

/-- `DMA_CYCLES(n)`: one bus (DMA) cycle spans 8 master-clock cycles
(`executeUntil` aligns the target with `targetClock &= ~0b111` and divides
the distance by `DMA_CYCLES(1)`). -/
def DMA_CYCLES (n : Int) : Int := 8 * n

/-- The Agnus state components named by the scheduler claims: the master
clock, the beam position, the per-cycle bus-owner and bus-value tables and
the scheduler slot triggers (the latter two abstracted as functions). -/
structure Agnus where
  clock : Int
  hpos : Nat
  vpos : Nat
  nextTrigger : Int
  busOwner : Nat → Nat
  busValue : Nat → Nat
  slotTrigger : Nat → Int

/-- `Agnus::execute`: dispatch all due events (`executeEventsUntil(clock)`,
abstracted as `dispatch`, run only when `nextTrigger <= clock`), then advance
the clock by one DMA cycle and step `pos.h`, wrapping at `HPOS_MAX`. -/
def Agnus.execute (dispatch : Agnus → Agnus) (a : Agnus) : Agnus :=
  let a := if a.nextTrigger ≤ a.clock then dispatch a else a
  let a := { a with clock := a.clock + DMA_CYCLES 1 }
  { a with hpos := if a.hpos < HPOS_MAX then a.hpos + 1 else 0 }

/-- `n` back-to-back calls of `Agnus::execute`. -/
def Agnus.executeN (dispatch : Agnus → Agnus) : Nat → Agnus → Agnus
  | 0, a => a
  | n + 1, a => Agnus.executeN dispatch n (Agnus.execute dispatch a)

/-- `Agnus::executeUntil` (the release variant): align the target clock to
the DMA-cycle raster, compute the cycle count with C truncating division,
and either fast-forward (`clock = targetClock; pos.h += dmaCycles;`) when
the target lies before the next trigger, or execute cycle by cycle.
`x &= ~0b111` on a two's complement integer equals `x - x.emod 8`. -/
def Agnus.executeUntil (dispatch : Agnus → Agnus) (a : Agnus) (targetClock : Int) :
    Agnus :=
  let targetClock := targetClock - targetClock.emod 8
  let dmaCycles := Int.tdiv (targetClock - a.clock) (DMA_CYCLES 1)
  if targetClock < a.nextTrigger ∧ 0 < dmaCycles then
    { a with clock := targetClock, hpos := a.hpos + dmaCycles.toNat }
  else
    Agnus.executeN dispatch dmaCycles.toNat a

/-- The loop shared by `Agnus::updateBplJumpTable` and
`Agnus::updateDasJumpTable`, fuel-indexed: fuel `k + 1` runs the iteration
with `i = k`, which first stores the running `next` into the table at `i`
and then pulls `next` down to `i` whenever the event table is nonzero there
(`EVENT_NONE = 0`). -/
def jtLoop (event : Nat → Nat) : Nat → Nat → (Nat → Nat) → Nat → Nat
  | 0, _, tbl => tbl
  | k + 1, next, tbl =>
    jtLoop event k (if event k ≠ 0 then k else next)
      (fun j => if j = k then next else tbl j)

/-- `Agnus::updateBplJumpTable(end)`: seeds `next` with `nextBplEvent[end]`
and scans from `i = end` down to `0` (the default argument is
`end = HPOS_MAX`). -/
def updateBplJumpTable (bplEvent nextBplEvent : Nat → Nat) (e : Nat) : Nat → Nat :=
  jtLoop bplEvent (e + 1) (nextBplEvent e) nextBplEvent

/-- `Agnus::updateDasJumpTable(end)`: same algorithm over the DAS tables. -/
def updateDasJumpTable (dasEvent nextDasEvent : Nat → Nat) (e : Nat) : Nat → Nat :=
  jtLoop dasEvent (e + 1) (nextDasEvent e) nextDasEvent


/-! ## Concrete states used by witnesses and counterexamples -/

/-- The Copper state used as the C1 failing input: `cdang` is set and the
latched MOVE instruction targets register `0x40`. -/
def copperC1 : Copper :=
  { state := CopEventID.COPPER_MOVE, skip := false, coplc0 := 0, coplc1 := 0,
    cdang := true, copins1 := 0x40, copins2 := 0, coppc := 0 }

/-- The Copper state used as the C2 failing input: the second word of a SKIP
instruction is about to be processed (`copins1 = 1`, so the instruction is
SKIP once the odd second word arrives). -/
def copperC2 : Copper :=
  { state := CopEventID.COPPER_WAIT_OR_SKIP, skip := false, coplc0 := 0,
    coplc1 := 0, cdang := false, copins1 := 1, copins2 := 0, coppc := 0 }

/-- The Copper program memory used as the C2 failing input: at address 0 the
second word `0x0003` of the SKIP instruction `{0x0001, 0x0003}` (comparator
value 0, mask 2 — satisfied at every beam position), followed by the MOVE
instruction `{0x0020, 0x5678}`. -/
def memC2 : Nat → Nat :=
  fun a => if a = 0 then 0x0003 else if a = 2 then 0x0020 else
           if a = 4 then 0x5678 else 0

/-- The Copper state used as the C5 failing input: a latched WAIT
instruction `{0x0001, 0x0002}` (comparator value `0`, mask `2`). -/
def copperC5 : Copper :=
  { state := CopEventID.COPPER_WAIT_OR_SKIP, skip := false, coplc0 := 0,
    coplc1 := 0, cdang := false, copins1 := 1, copins2 := 2, coppc := 0 }

/-- The controller state used for C3: DSKLEN already armed
(`dsklen = 0x8001`), DMA still off. -/
def diskC3 : DiskController :=
  { fifo := 0, fifoCount := 0, state := DRIVE_DMA_OFF, dsklen := 0x8001,
    dsksync := 0x4489, syncFlag := false, incoming := 0, incomingCycle := 0,
    prb := 0xFF, selected := 0 }

/-- The controller state used by the C4 witness: waiting for a sync mark
with the byte `0x44` already in the FIFO, so that pushing `0x89` completes
the standard sync word `0x4489`. -/
def diskC4 : DiskController :=
  { fifo := 0x44, fifoCount := 1, state := DRIVE_DMA_WAIT, dsklen := 0x8000,
    dsksync := 0x4489, syncFlag := false, incoming := 0, incomingCycle := 0,
    prb := 0xFF, selected := 0 }

/-- An empty-FIFO controller state used by the C8 witness. -/
def diskC8 : DiskController :=
  { fifo := 0, fifoCount := 0, state := DRIVE_DMA_READ, dsklen := 0,
    dsksync := 0x4489, syncFlag := false, incoming := 0, incomingCycle := 0,
    prb := 0xFF, selected := 0 }

/-- The Agnus state used as the C6 counterexample: the beam stands on the
last position of the line and no event is due for a long time. -/
def agnusC6 : Agnus :=
  { clock := 0, hpos := HPOS_MAX, vpos := 0, nextTrigger := 1000000,
    busOwner := fun _ => 0, busValue := fun _ => 0, slotTrigger := fun _ => 0 }

/-- The Agnus state used by the C6 witness: beam at the line start, next
trigger 100 master cycles away. -/
def agnusC6w : Agnus :=
  { clock := 0, hpos := 0, vpos := 0, nextTrigger := 100,
    busOwner := fun _ => 0, busValue := fun _ => 0, slotTrigger := fun _ => 0 }

/-- The event table used by the C7 witness: events at positions 5 and
`HPOS_MAX` only. -/
def eventW : Nat → Nat :=
  fun i => if i = 5 ∨ i = HPOS_MAX then 1 else 0

/-- The jump table used by the C7 witness (all sentinel). -/
def nextEventW : Nat → Nat :=
  fun _ => 0

/-! ## Helper definitions and lemmas -/

/-- The value the jump-table loop leaves at position `j` when run with fuel
`k`: the nearest position strictly above `j` and strictly below `k` carrying
a nonzero event, or the incoming `next` when there is none. -/
def auxFind (event : Nat → Nat) (j : Nat) : Nat → Nat → Nat
  | 0, next => next
  | k + 1, next =>
    if j = k then next else auxFind event j k (if event k ≠ 0 then k else next)

/-- A bit that is zero in `a` stays zero after intersecting with `b`. -/
theorem and_and_zero_left {a b m : Nat} (h : a &&& m = 0) : a &&& b &&& m = 0 := by
  rw [Nat.and_assoc, Nat.and_comm b m, ← Nat.and_assoc, h, Nat.zero_and]

/-- `Int.emod` is the `%` of `Int`. -/
theorem emod_eq_mod (x y : Int) : x.emod y = x % y := rfl

/-- While the clock stays strictly before the next trigger and the beam does
not cross the line end, `execute` steps are pure clock / beam arithmetic. -/
theorem executeN_no_events (dispatch : Agnus → Agnus) :
    ∀ (N : Nat) (a : Agnus), a.clock + DMA_CYCLES N ≤ a.nextTrigger →
      a.hpos + N ≤ HPOS_MAX →
      Agnus.executeN dispatch N a =
        { a with clock := a.clock + DMA_CYCLES N, hpos := a.hpos + N } := by
  intro N
  induction N with
  | zero =>
    intro a _ _
    simp [Agnus.executeN, DMA_CYCLES]
  | succ n ih =>
    intro a hclk hpos
    have h1 : ¬ a.nextTrigger ≤ a.clock := by
      simp only [DMA_CYCLES] at hclk
      push_cast at hclk
      omega
    have h2 : a.hpos < HPOS_MAX := by omega
    have hstep : Agnus.execute dispatch a =
        { a with clock := a.clock + DMA_CYCLES 1, hpos := a.hpos + 1 } := by
      simp [Agnus.execute, h1, h2]
    rw [Agnus.executeN, hstep, ih]
    · simp only [DMA_CYCLES]
      congr 1 <;> push_cast <;> ring
    · simp only [DMA_CYCLES] at hclk ⊢
      push_cast at hclk ⊢
      omega
    · simp only
      omega

/-- Positions at or above the fuel are never written by the loop. -/
theorem jtLoop_ge (event : Nat → Nat) :
    ∀ (k : Nat) (next : Nat) (tbl : Nat → Nat) (j : Nat), k ≤ j →
      jtLoop event k next tbl j = tbl j := by
  intro k
  induction k with
  | zero => intro next tbl j _; rfl
  | succ n ih =>
    intro next tbl j hj
    rw [jtLoop, ih _ _ j (by omega)]
    simp only [if_neg (by omega : ¬ j = n)]

/-- Below the fuel, the loop computes `auxFind`. -/
theorem jtLoop_lt (event : Nat → Nat) :
    ∀ (k : Nat) (next : Nat) (tbl : Nat → Nat) (j : Nat), j < k →
      jtLoop event k next tbl j = auxFind event j k next := by
  intro k
  induction k with
  | zero => intro next tbl j hj; omega
  | succ n ih =>
    intro next tbl j hj
    rw [jtLoop, auxFind]
    by_cases hjn : j = n
    · rw [if_pos hjn, jtLoop_ge event n _ _ j (by omega)]
      simp [hjn]
    · rw [if_neg hjn, ih _ _ j (by omega)]

/-- `auxFind` falls through to `next` when the scanned range holds no
event. -/
theorem auxFind_no_hit (event : Nat → Nat) (j : Nat) :
    ∀ (k : Nat) (next : Nat), j < k → (∀ i, j < i → i < k → event i = 0) →
      auxFind event j k next = next := by
  intro k
  induction k with
  | zero => intro next h _; omega
  | succ n ih =>
    intro next hj hnone
    rw [auxFind]
    by_cases hjn : j = n
    · rw [if_pos hjn]
    · have hjlt : j < n := by omega
      rw [if_neg hjn, if_neg (by simp [hnone n hjlt (by omega)])]
      exact ih next hjlt fun i h1 h2 => hnone i h1 (by omega)

/-- `auxFind` returns the smallest event position in range when one
exists. -/
theorem auxFind_hit (event : Nat → Nat) (j : Nat) :
    ∀ (k : Nat) (next : Nat), (∃ i, j < i ∧ i < k ∧ event i ≠ 0) →
      j < auxFind event j k next ∧ auxFind event j k next < k ∧
      event (auxFind event j k next) ≠ 0 ∧
      ∀ i2, j < i2 → i2 < auxFind event j k next → event i2 = 0 := by
  intro k
  induction k with
  | zero =>
    intro next ⟨i, h1, h2, _⟩
    omega
  | succ n ih =>
    intro next ⟨i, h1, h2, h3⟩
    have hjn : ¬ j = n := by
      intro he
      omega
    rw [auxFind, if_neg hjn]
    by_cases hex : ∃ i2, j < i2 ∧ i2 < n ∧ event i2 ≠ 0
    · obtain ⟨A1, A2, A3, A4⟩ := ih _ hex
      exact ⟨A1, by omega, A3, A4⟩
    · have hin : i = n := by
        by_cases hlt : i < n
        · exact absurd ⟨i, h1, hlt, h3⟩ hex
        · omega
      subst hin
      have hnone : ∀ i2, j < i2 → i2 < i → event i2 = 0 := by
        intro i2 hj2 hn2
        by_contra hc
        exact hex ⟨i2, hj2, hn2, hc⟩
      rw [if_pos h3, auxFind_no_hit event j i i (by omega) hnone]
      exact ⟨by omega, by omega, h3, hnone⟩

/-- Folding bytes onto an accumulator splits into the accumulator's
contribution and the bytes' own value. -/
theorem bytesVal_go (bs : List Nat) :
    ∀ (a : Nat), bs.foldl (fun x b => 256 * x + b) a = a * 256 ^ bs.length + bytesVal bs := by
  induction bs with
  | nil => intro a; simp [bytesVal]
  | cons b bs ih =>
    intro a
    simp only [List.foldl_cons, List.length_cons, bytesVal]
    rw [ih (256 * a + b), show 256 * 0 + b = b by ring, ih b]
    ring

/-- Peeling the leading (oldest) byte off `bytesVal`. -/
theorem bytesVal_cons (b : Nat) (bs : List Nat) :
    bytesVal (b :: bs) = b * 256 ^ bs.length + bytesVal bs := by
  have h := bytesVal_go bs b
  simpa [bytesVal] using h

/-- A list of bytes denotes a value below `256 ^ length`. -/
theorem bytesVal_lt (bs : List Nat) (hbytes : ∀ b ∈ bs, b < 256) :
    bytesVal bs < 256 ^ bs.length := by
  induction bs with
  | nil => simp [bytesVal]
  | cons b bs ih =>
    rw [bytesVal_cons]
    simp only [List.length_cons, pow_succ]
    have hb : b < 256 := hbytes b (List.mem_cons_self b bs)
    have hr : bytesVal bs < 256 ^ bs.length := ih fun x hx => hbytes x (List.mem_cons_of_mem b hx)
    calc b * 256 ^ bs.length + bytesVal bs
        < b * 256 ^ bs.length + 256 ^ bs.length := by omega
      _ = (b + 1) * 256 ^ bs.length := by ring
      _ ≤ 256 * 256 ^ bs.length := Nat.mul_le_mul_right _ (by omega)
      _ = 256 ^ bs.length * 256 := by ring

/-- One `writeFifo` below capacity appends the byte arithmetically. -/
theorem writeFifo_fifo (c : DiskController) (b : Nat) (hb : b < 256)
    (hcnt : c.fifoCount ≤ 5) (hfifo : c.fifo < 256 ^ c.fifoCount) :
    (writeFifo c b).fifo = 256 * c.fifo + b ∧
    (writeFifo c b).fifoCount = c.fifoCount + 1 := by
  have h6 : (c.fifoCount == 6) = false := by
    simp only [beq_eq_false_iff_ne, ne_eq]
    omega
  have hor : (c.fifo <<< 8) ||| b = 256 * c.fifo + b := by
    have h2 := (Nat.mul_add_lt_is_or (show b < 2 ^ 8 by omega) c.fifo).symm
    rw [show (2 : Nat) ^ 8 = 256 by norm_num] at h2
    rw [Nat.shiftLeft_eq, show (2 : Nat) ^ 8 = 256 by norm_num, Nat.mul_comm c.fifo 256]
    exact h2
  have h5 : c.fifo < 256 ^ 5 :=
    lt_of_lt_of_le hfifo (Nat.pow_le_pow_right (by norm_num) hcnt)
  have hlt : 256 * c.fifo + b < 18446744073709551616 := by
    rw [show (256 : Nat) ^ 5 = 1099511627776 by norm_num] at h5
    omega
  constructor <;> simp [writeFifo, h6, hor, Nat.mod_eq_of_lt hlt]

/-- Pushing a below-capacity byte list accumulates its big-endian value. -/
theorem pushAll_spec (bs : List Nat) :
    ∀ (c : DiskController), c.fifoCount + bs.length ≤ 6 →
      (∀ b ∈ bs, b < 256) → c.fifo < 256 ^ c.fifoCount →
      (pushAll c bs).fifo = c.fifo * 256 ^ bs.length + bytesVal bs ∧
      (pushAll c bs).fifoCount = c.fifoCount + bs.length := by
  induction bs with
  | nil =>
    intro c _ _ _
    simp [pushAll, bytesVal]
  | cons b bs ih =>
    intro c hlen hbytes hfifo
    have hb : b < 256 := hbytes b (List.mem_cons_self b bs)
    have hcnt : c.fifoCount ≤ 5 := by
      simp only [List.length_cons] at hlen
      omega
    obtain ⟨hw1, hw2⟩ := writeFifo_fifo c b hb hcnt hfifo
    have hpush : pushAll c (b :: bs) = pushAll (writeFifo c b) bs := rfl
    have hnext : (writeFifo c b).fifo < 256 ^ (writeFifo c b).fifoCount := by
      rw [hw1, hw2, pow_succ]
      calc 256 * c.fifo + b < 256 * c.fifo + 256 := by omega
        _ = 256 * (c.fifo + 1) := by ring
        _ ≤ 256 * 256 ^ c.fifoCount := Nat.mul_le_mul_left _ (by omega)
        _ = 256 ^ c.fifoCount * 256 := by ring
    obtain ⟨h1, h2⟩ := ih (writeFifo c b)
      (by rw [hw2]; simp only [List.length_cons] at hlen; omega)
      (fun x hx => hbytes x (List.mem_cons_of_mem b hx)) hnext
    refine ⟨?_, ?_⟩
    · rw [hpush, h1, hw1, bytesVal_cons]
      simp only [List.length_cons, pow_succ]
      ring
    · rw [hpush, h2, hw2]
      simp only [List.length_cons]
      omega

/-- Reading a FIFO whose low bytes hold `bytesVal bs` returns `bs` in order
and empties the FIFO. -/
theorem readAll_bytesVal (bs : List Nat) :
    ∀ (c : DiskController), (∀ b ∈ bs, b < 256) → c.fifoCount = bs.length →
      c.fifo % 256 ^ bs.length = bytesVal bs →
      (readAll c bs.length).1 = bs ∧ (readAll c bs.length).2.fifoCount = 0 := by
  induction bs with
  | nil =>
    intro c _ hcount _
    exact ⟨rfl, hcount⟩
  | cons b bs ih =>
    intro c hbytes hcount hmod
    have hb : b < 256 := hbytes b (List.mem_cons_self b bs)
    have hrlt : bytesVal bs < 256 ^ bs.length :=
      bytesVal_lt bs fun x hx => hbytes x (List.mem_cons_of_mem b hx)
    rw [bytesVal_cons] at hmod
    simp only [List.length_cons] at hcount hmod
    have hval : c.fifo >>> (8 * bs.length) &&& 0xFF = b := by
      rw [Nat.shiftRight_eq_div_pow]
      rw [show (0xFF : Nat) = 2 ^ 8 - 1 by norm_num, Nat.and_pow_two_sub_one_eq_mod]
      rw [show (2 : Nat) ^ (8 * bs.length) = 256 ^ bs.length by
        rw [pow_mul]; norm_num]
      rw [show (2 : Nat) ^ 8 = 256 by norm_num]
      rw [← Nat.mod_mul_right_div_self, ← pow_succ, hmod]
      rw [Nat.add_comm, Nat.add_mul_div_right _ _ (by positivity : 0 < 256 ^ bs.length)]
      rw [Nat.div_eq_of_lt hrlt]
      omega
    have hfirst : readFifo c = (b, { c with fifoCount := bs.length }) := by
      rw [readFifo]
      rw [hcount]
      simp only [Nat.add_sub_cancel]
      rw [hval]
    have hmod2 : ({ c with fifoCount := bs.length } : DiskController).fifo % 256 ^ bs.length
        = bytesVal bs := by
      simp only
      rw [← Nat.mod_mod_of_dvd c.fifo
        (pow_dvd_pow 256 (by omega : bs.length ≤ bs.length + 1)), hmod]
      rw [Nat.mul_comm b (256 ^ bs.length)]
      rw [Nat.mul_add_mod]
      exact Nat.mod_eq_of_lt hrlt
    obtain ⟨h1, h2⟩ := ih { c with fifoCount := bs.length }
      (fun x hx => hbytes x (List.mem_cons_of_mem b hx)) rfl hmod2
    refine ⟨?_, ?_⟩
    · show ((readFifo c).1 :: (readAll (readFifo c).2 bs.length).1, _).1 = b :: bs
      rw [hfirst]
      simp only
      rw [h1]
    · show ((readAll (readFifo c).2 bs.length).2).fifoCount = 0
      rw [hfirst]
      exact h2

/-! ## Claim theorems -/

/-- Claim C10: after `DiskController::_reset`, `dsksync = 0x4489` (the
standard sync-mark pattern), `prb = 0xFF` and `selected = -1`. -/
theorem reset_initial_values :
    DiskController.reset.dsksync = 0x4489 ∧
    DiskController.reset.prb = 0xFF ∧
    DiskController.reset.selected = -1 :=
  ⟨rfl, rfl, rfl⟩

/-- Claim C9: a `DSK_ROTATE` step with no drive selected
(`getSelectedDrive() == NULL`, i.e. `selected == -1`) leaves the whole
disk-controller state unchanged and raises no interrupt. -/
theorem executeFifo_no_drive (c : DiskController) (clock : Int) :
    executeFifo c none clock = (c, false) :=
  rfl

/-- Claim C1, behaviour of the code at the failing input: with
`cdang = true` a MOVE to register `0x40` is treated as illegal — no register
write happens and the Copper event slot is cancelled — while with
`cdang = false` the very same MOVE performs the write.  This is the exact
inversion of the claimed rule (and of the HRM quote in `pokeCOPCON`): the
ternary in `Copper::illegalAddress` makes `cdang` shrink the writable range
instead of extending it. -/
theorem moveRegisterGate_inverted :
    (processMove copperC1 (fun _ => 0x1234) true).regWrite = none ∧
    (processMove copperC1 (fun _ => 0x1234) true).slotCancelled = true ∧
    (processMove { copperC1 with cdang := false } (fun _ => 0x1234) true).regWrite =
      some (0x40, 0x1234) ∧
    (processMove { copperC1 with cdang := false } (fun _ => 0x1234) true).slotCancelled =
      false := by
  decide

/-- Claim C2, behaviour of the code at the failing input: the SKIP condition
holds at beam position 0 and the `skip` flag is set, yet the very next MOVE
still performs its register write (the guard in `processEvent(COPPER_MOVE)`
is the constant `if (1)`, with `if (!skip)` left as a TODO), and `skip` is
never cleared. -/
theorem skip_does_not_suppress_move :
    (processWaitOrSkip copperC2 memC2 true 0).skip = true ∧
    (processMove (processFetch (processWaitOrSkip copperC2 memC2 true 0) memC2 true).1
        memC2 true).regWrite = some (0x20, 0x5678) ∧
    (processMove (processFetch (processWaitOrSkip copperC2 memC2 true 0) memC2 true).1
        memC2 true).copper.skip = true := by
  decide

/-- Claim C5, behaviour of the code at the failing input: at beam position 0
the comparator (value `getVPHP = 0`, mask `getVMHM = 2`) is already
satisfied at the current beam position 0 itself, so the smallest triggering
position at or after the beam is 0 — yet `nextTriggerPosition` returns
`0x1FFFF`: its loop feeds the trial position into the waitpos argument of
`runComparator` instead of the beam argument, so the very first trial fails
and the greedy descent stops immediately. -/
theorem nextTriggerPosition_not_minimal :
    nextTriggerPosition copperC5 0 = 0x1FFFF ∧
    runComparator 0 (getVPHP copperC5) (getVMHM copperC5) = true ∧
    (0 : Nat) < 0x1FFFF := by
  decide

/-- Claim C3 counterexample: writing `0x8001` on top of `0x8001` (bit 15 set
in both, bit 14 in neither, ADKCON bit 10 clear) must, by the claim, leave
the controller in `DRIVE_DMA_READ` — but when the selected drive is a turbo
drive, `pokeDSKLEN` finishes with `performTurboDMA`, which completes the
transfer on the spot and drops the state back to `DRIVE_DMA_OFF`. -/
theorem pokeDSKLEN_turbo_breaks_read_transition :
    diskC3.dsklen &&& 0x8000 ≠ 0 ∧ (0x8001 : Nat) &&& 0x8000 ≠ 0 ∧
    diskC3.dsklen &&& 0x4000 = 0 ∧ Nat.testBit 0 10 = false ∧
    (pokeDSKLEN diskC3 0x8001 0 true).state ≠ DRIVE_DMA_READ ∧
    (pokeDSKLEN diskC3 0x8001 0 true).state = DRIVE_DMA_OFF := by
  decide

/-- Claim C3 (amended: provided no turbo drive is selected): a DSKLEN write
with bit 15 clear forces `DMA_OFF` and clears the FIFO; with bit 15 set in
both old and new value the state becomes WRITE / WAIT / READ according to
the double-written bit 14 and ADKCON bit 10, clearing the FIFO; with bit 15
newly set the state is unchanged. -/
theorem pokeDSKLEN_state_machine (c : DiskController) (n adkcon : Nat) :
    (n &&& 0x8000 = 0 →
      (pokeDSKLEN c n adkcon false).state = DRIVE_DMA_OFF ∧
      (pokeDSKLEN c n adkcon false).fifo = 0 ∧
      (pokeDSKLEN c n adkcon false).fifoCount = 0) ∧
    (c.dsklen &&& n &&& 0x8000 ≠ 0 →
      ((c.dsklen &&& n &&& 0x4000 ≠ 0 →
         (pokeDSKLEN c n adkcon false).state = DRIVE_DMA_WRITE) ∧
       (c.dsklen &&& n &&& 0x4000 = 0 → adkcon.testBit 10 = true →
         (pokeDSKLEN c n adkcon false).state = DRIVE_DMA_WAIT) ∧
       (c.dsklen &&& n &&& 0x4000 = 0 → adkcon.testBit 10 = false →
         (pokeDSKLEN c n adkcon false).state = DRIVE_DMA_READ) ∧
       (pokeDSKLEN c n adkcon false).fifo = 0 ∧
       (pokeDSKLEN c n adkcon false).fifoCount = 0)) ∧
    (n &&& 0x8000 ≠ 0 → c.dsklen &&& 0x8000 = 0 →
      (pokeDSKLEN c n adkcon false).state = c.state) := by
  by_cases h1 : n &&& 0x8000 = 0 <;>
    by_cases h2 : c.dsklen &&& n &&& 0x8000 = 0 <;>
    by_cases h3 : c.dsklen &&& n &&& 0x4000 = 0 <;>
    by_cases h4 : adkcon.testBit 10 <;>
    simp_all [pokeDSKLEN, clearFifo] <;>
    first
      | exact fun hc => absurd (and_and_zero_left hc) h2
      | exact absurd (by rw [Nat.and_assoc, h1, Nat.and_zero]) h2

/-- Witness for C3: an armed double write of `0x8001` without a turbo drive
ends in `DRIVE_DMA_READ` with a cleared FIFO. -/
theorem pokeDSKLEN_state_machine_witness :
    diskC3.dsklen &&& (0x8001 : Nat) &&& 0x8000 ≠ 0 ∧
    diskC3.dsklen &&& (0x8001 : Nat) &&& 0x4000 = 0 ∧
    Nat.testBit 0 10 = false ∧
    (pokeDSKLEN diskC3 0x8001 0 false).state = DRIVE_DMA_READ ∧
    (pokeDSKLEN diskC3 0x8001 0 false).fifo = 0 ∧
    (pokeDSKLEN diskC3 0x8001 0 false).fifoCount = 0 :=
  ⟨by decide, by decide, by decide,
   ((pokeDSKLEN_state_machine diskC3 0x8001 0).2.1 (by decide)).2.2.1 (by decide) (by decide),
   ((pokeDSKLEN_state_machine diskC3 0x8001 0).2.1 (by decide)).2.2.2.1,
   ((pokeDSKLEN_state_machine diskC3 0x8001 0).2.1 (by decide)).2.2.2.2⟩

/-- Claim C4: in state `DMA_WAIT` or `DMA_READ` with a drive selected, one
rotate step latches the incoming byte, pushes it into the FIFO, sets
`syncFlag` exactly when the pushed FIFO holds at least two bytes whose low
16 bits equal `dsksync`, raises the sync interrupt exactly then, and on a
sync in `DMA_WAIT` switches to `DMA_READ` with a cleared FIFO (otherwise
state and FIFO are exactly the pushed ones). -/
theorem executeFifo_read_sync (c : DiskController) (b : Nat) (clock : Int)
    (hst : c.state = DRIVE_DMA_WAIT ∨ c.state = DRIVE_DMA_READ) :
    (executeFifo c (some b) clock).1.incoming = b ∧
    (executeFifo c (some b) clock).1.incomingCycle = clock ∧
    (executeFifo c (some b) clock).1.syncFlag =
      decide (2 ≤ (writeFifo c b).fifoCount ∧
              (writeFifo c b).fifo &&& 0xFFFF = c.dsksync) ∧
    (executeFifo c (some b) clock).2 = (executeFifo c (some b) clock).1.syncFlag ∧
    ((executeFifo c (some b) clock).1.syncFlag = true → c.state = DRIVE_DMA_WAIT →
      (executeFifo c (some b) clock).1.state = DRIVE_DMA_READ ∧
      (executeFifo c (some b) clock).1.fifo = 0 ∧
      (executeFifo c (some b) clock).1.fifoCount = 0) ∧
    ((executeFifo c (some b) clock).1.syncFlag = true → c.state = DRIVE_DMA_READ →
      (executeFifo c (some b) clock).1.state = c.state ∧
      (executeFifo c (some b) clock).1.fifo = (writeFifo c b).fifo ∧
      (executeFifo c (some b) clock).1.fifoCount = (writeFifo c b).fifoCount) ∧
    ((executeFifo c (some b) clock).1.syncFlag = false →
      (executeFifo c (some b) clock).1.state = c.state ∧
      (executeFifo c (some b) clock).1.fifo = (writeFifo c b).fifo ∧
      (executeFifo c (some b) clock).1.fifoCount = (writeFifo c b).fifoCount) := by
  rcases hst with h | h <;> simp only [executeFifo, h] <;> split <;> rename_i hB <;>
    simp_all [compareFifo, fifoHasWord, writeFifo, clearFifo, Bool.beq_eq_decide_eq]

/-- Witness for C4: from `diskC4` (waiting for sync, `0x44` buffered),
pushing the byte `0x89` completes the sync word `0x4489`: the sync flag and
interrupt fire, the state switches to `DMA_READ` and the FIFO clears. -/
theorem executeFifo_read_sync_witness :
    (diskC4.state = DRIVE_DMA_WAIT ∨ diskC4.state = DRIVE_DMA_READ) ∧
    ((executeFifo diskC4 (some 0x89) 7).1.incoming = 0x89 ∧
     (executeFifo diskC4 (some 0x89) 7).1.incomingCycle = 7 ∧
     (executeFifo diskC4 (some 0x89) 7).1.syncFlag =
       decide (2 ≤ (writeFifo diskC4 0x89).fifoCount ∧
               (writeFifo diskC4 0x89).fifo &&& 0xFFFF = diskC4.dsksync) ∧
     (executeFifo diskC4 (some 0x89) 7).2 = (executeFifo diskC4 (some 0x89) 7).1.syncFlag ∧
     ((executeFifo diskC4 (some 0x89) 7).1.syncFlag = true → diskC4.state = DRIVE_DMA_WAIT →
       (executeFifo diskC4 (some 0x89) 7).1.state = DRIVE_DMA_READ ∧
       (executeFifo diskC4 (some 0x89) 7).1.fifo = 0 ∧
       (executeFifo diskC4 (some 0x89) 7).1.fifoCount = 0) ∧
     ((executeFifo diskC4 (some 0x89) 7).1.syncFlag = true → diskC4.state = DRIVE_DMA_READ →
       (executeFifo diskC4 (some 0x89) 7).1.state = diskC4.state ∧
       (executeFifo diskC4 (some 0x89) 7).1.fifo = (writeFifo diskC4 0x89).fifo ∧
       (executeFifo diskC4 (some 0x89) 7).1.fifoCount = (writeFifo diskC4 0x89).fifoCount) ∧
     ((executeFifo diskC4 (some 0x89) 7).1.syncFlag = false →
       (executeFifo diskC4 (some 0x89) 7).1.state = diskC4.state ∧
       (executeFifo diskC4 (some 0x89) 7).1.fifo = (writeFifo diskC4 0x89).fifo ∧
       (executeFifo diskC4 (some 0x89) 7).1.fifoCount = (writeFifo diskC4 0x89).fifoCount)) ∧
    (executeFifo diskC4 (some 0x89) 7).1.syncFlag = true :=
  ⟨Or.inl rfl, executeFifo_read_sync diskC4 0x89 7 (Or.inl rfl), by decide⟩

/-- Claim C6 counterexample: from `hpos = HPOS_MAX` with the next trigger
far away, a single `execute()` wraps the horizontal counter to 0, while
`executeUntil(clock + DMA_CYCLES(1))` takes the fast-forward path and adds
the cycle count without wrapping, ending at `0xE3` — the two final beam
positions differ.  (The equivalence only holds while the advance does not
cross the end of the line, which the source asserts.) -/
theorem executeUntil_fastpath_wrap_mismatch :
    (Agnus.executeUntil (fun a => a) agnusC6 (agnusC6.clock + DMA_CYCLES 1)).hpos = 0xE3 ∧
    (Agnus.executeN (fun a => a) 1 agnusC6).hpos = 0 ∧
    (0xE3 : Nat) ≠ 0 := by
  decide

/-- Claim C6 (amended: provided the advance does not cross the end of the
scanline whenever the fast-forward condition holds — the invariant the
source asserts): executing `N` single cycles and one
`executeUntil(clock + DMA_CYCLES(N))` call produce identical states, for
every dispatch behaviour and any cycle-aligned clock. -/
theorem executeUntil_eq_executeN (dispatch : Agnus → Agnus) (a : Agnus) (N : Nat)
    (h8 : a.clock % 8 = 0)
    (hline : a.clock + DMA_CYCLES N < a.nextTrigger → a.hpos + N ≤ HPOS_MAX) :
    Agnus.executeUntil dispatch a (a.clock + DMA_CYCLES N) = Agnus.executeN dispatch N a := by
  have hmod : (a.clock + DMA_CYCLES N).emod 8 = 0 := by
    rw [emod_eq_mod]
    simp only [DMA_CYCLES]
    omega
  have htd : Int.tdiv (a.clock + DMA_CYCLES N - a.clock) (DMA_CYCLES 1) = (N : Int) := by
    have h0 : a.clock + DMA_CYCLES N - a.clock = 8 * (N : Int) := by
      simp only [DMA_CYCLES]; ring
    rw [h0]
    simp only [DMA_CYCLES, mul_one]
    rw [Int.tdiv_eq_ediv (by positivity) (by norm_num)]
    exact Int.mul_ediv_cancel_left _ (by norm_num)
  simp only [Agnus.executeUntil, hmod, sub_zero, htd]
  by_cases hfast : a.clock + DMA_CYCLES N < a.nextTrigger ∧ (0 : Int) < (N : Int)
  · rw [if_pos hfast]
    rw [executeN_no_events dispatch N a (le_of_lt hfast.1) (hline hfast.1)]
    simp
  · rw [if_neg hfast]
    simp

/-- Witness for C6: from `agnusC6w` (aligned clock 0, next trigger at 100),
two single cycles equal one `executeUntil` over two DMA cycles. -/
theorem executeUntil_eq_executeN_witness :
    agnusC6w.clock % 8 = 0 ∧
    (agnusC6w.clock + DMA_CYCLES 2 < agnusC6w.nextTrigger → agnusC6w.hpos + 2 ≤ HPOS_MAX) ∧
    Agnus.executeUntil (fun a => a) agnusC6w (agnusC6w.clock + DMA_CYCLES 2) =
      Agnus.executeN (fun a => a) 2 agnusC6w :=
  ⟨by decide, by decide,
   executeUntil_eq_executeN (fun a => a) agnusC6w 2 (by decide) (by decide)⟩

/-- Claim C7: after a full-table rebuild (`end = HPOS_MAX`, the default
argument) over tables whose sentinel entry `nextXEvent[HPOS_MAX]` is 0 (the
invariant `verifyBplEvents` / `verifyDasEvents` assert), every position
`h ≤ HPOS_MAX` points to the smallest `h' > h` carrying a nonzero event, or
to the 0 sentinel when no such `h'` exists — for the BPL and the DAS tables
alike. -/
theorem jumpTables_point_to_next_event
    (bplEvent nextBplEvent dasEvent nextDasEvent : Nat → Nat) (h : Nat)
    (hh : h ≤ HPOS_MAX)
    (hb : nextBplEvent HPOS_MAX = 0) (hd : nextDasEvent HPOS_MAX = 0) :
    ((∃ i, h < i ∧ i ≤ HPOS_MAX ∧ bplEvent i ≠ 0) →
       h < updateBplJumpTable bplEvent nextBplEvent HPOS_MAX h ∧
       updateBplJumpTable bplEvent nextBplEvent HPOS_MAX h ≤ HPOS_MAX ∧
       bplEvent (updateBplJumpTable bplEvent nextBplEvent HPOS_MAX h) ≠ 0 ∧
       ∀ i, h < i → i < updateBplJumpTable bplEvent nextBplEvent HPOS_MAX h →
         bplEvent i = 0) ∧
    ((∀ i, h < i → i ≤ HPOS_MAX → bplEvent i = 0) →
       updateBplJumpTable bplEvent nextBplEvent HPOS_MAX h = 0) ∧
    ((∃ i, h < i ∧ i ≤ HPOS_MAX ∧ dasEvent i ≠ 0) →
       h < updateDasJumpTable dasEvent nextDasEvent HPOS_MAX h ∧
       updateDasJumpTable dasEvent nextDasEvent HPOS_MAX h ≤ HPOS_MAX ∧
       dasEvent (updateDasJumpTable dasEvent nextDasEvent HPOS_MAX h) ≠ 0 ∧
       ∀ i, h < i → i < updateDasJumpTable dasEvent nextDasEvent HPOS_MAX h →
         dasEvent i = 0) ∧
    ((∀ i, h < i → i ≤ HPOS_MAX → dasEvent i = 0) →
       updateDasJumpTable dasEvent nextDasEvent HPOS_MAX h = 0) := by
  have hbpl : updateBplJumpTable bplEvent nextBplEvent HPOS_MAX h =
      auxFind bplEvent h (HPOS_MAX + 1) (nextBplEvent HPOS_MAX) := by
    rw [updateBplJumpTable, jtLoop_lt bplEvent (HPOS_MAX + 1) _ _ h (by omega)]
  have hdas : updateDasJumpTable dasEvent nextDasEvent HPOS_MAX h =
      auxFind dasEvent h (HPOS_MAX + 1) (nextDasEvent HPOS_MAX) := by
    rw [updateDasJumpTable, jtLoop_lt dasEvent (HPOS_MAX + 1) _ _ h (by omega)]
  refine ⟨?_, ?_, ?_, ?_⟩
  · intro ⟨i, h1, h2, h3⟩
    rw [hbpl]
    obtain ⟨A1, A2, A3, A4⟩ := auxFind_hit bplEvent h (HPOS_MAX + 1) (nextBplEvent HPOS_MAX)
      ⟨i, h1, by omega, h3⟩
    exact ⟨A1, by omega, A3, A4⟩
  · intro hnone
    rw [hbpl, auxFind_no_hit bplEvent h (HPOS_MAX + 1) _ (by omega)
      (fun i h1 h2 => hnone i h1 (by omega)), hb]
  · intro ⟨i, h1, h2, h3⟩
    rw [hdas]
    obtain ⟨A1, A2, A3, A4⟩ := auxFind_hit dasEvent h (HPOS_MAX + 1) (nextDasEvent HPOS_MAX)
      ⟨i, h1, by omega, h3⟩
    exact ⟨A1, by omega, A3, A4⟩
  · intro hnone
    rw [hdas, auxFind_no_hit dasEvent h (HPOS_MAX + 1) _ (by omega)
      (fun i h1 h2 => hnone i h1 (by omega)), hd]

/-- Witness for C7: over the table `eventW` (events at 5 and `HPOS_MAX`)
with the all-sentinel jump table, the rebuild is characterised at `h = 3`. -/
theorem jumpTables_point_to_next_event_witness :
    (3 : Nat) ≤ HPOS_MAX ∧ nextEventW HPOS_MAX = 0 ∧
    (((∃ i, 3 < i ∧ i ≤ HPOS_MAX ∧ eventW i ≠ 0) →
       3 < updateBplJumpTable eventW nextEventW HPOS_MAX 3 ∧
       updateBplJumpTable eventW nextEventW HPOS_MAX 3 ≤ HPOS_MAX ∧
       eventW (updateBplJumpTable eventW nextEventW HPOS_MAX 3) ≠ 0 ∧
       ∀ i, 3 < i → i < updateBplJumpTable eventW nextEventW HPOS_MAX 3 →
         eventW i = 0) ∧
     ((∀ i, 3 < i → i ≤ HPOS_MAX → eventW i = 0) →
       updateBplJumpTable eventW nextEventW HPOS_MAX 3 = 0) ∧
     ((∃ i, 3 < i ∧ i ≤ HPOS_MAX ∧ eventW i ≠ 0) →
       3 < updateDasJumpTable eventW nextEventW HPOS_MAX 3 ∧
       updateDasJumpTable eventW nextEventW HPOS_MAX 3 ≤ HPOS_MAX ∧
       eventW (updateDasJumpTable eventW nextEventW HPOS_MAX 3) ≠ 0 ∧
       ∀ i, 3 < i → i < updateDasJumpTable eventW nextEventW HPOS_MAX 3 →
         eventW i = 0) ∧
     ((∀ i, 3 < i → i ≤ HPOS_MAX → eventW i = 0) →
       updateDasJumpTable eventW nextEventW HPOS_MAX 3 = 0)) :=
  ⟨by decide, rfl,
   jumpTables_point_to_next_event eventW nextEventW eventW nextEventW 3 (by decide) rfl rfl⟩

/-- Claim C8: pushing at most six bytes into an empty FIFO and popping the
same number returns the bytes in order and leaves the FIFO empty. -/
theorem fifo_roundtrip (c : DiskController) (bs : List Nat)
    (hlen : bs.length ≤ 6) (hbytes : ∀ b ∈ bs, b < 256)
    (hfifo : c.fifo = 0) (hcount : c.fifoCount = 0) :
    (readAll (pushAll c bs) bs.length).1 = bs ∧
    (readAll (pushAll c bs) bs.length).2.fifoCount = 0 := by
  obtain ⟨h1, h2⟩ := pushAll_spec bs c (by omega) hbytes
    (by rw [hfifo, hcount]; norm_num)
  have hval : (pushAll c bs).fifo % 256 ^ bs.length = bytesVal bs := by
    rw [h1, hfifo, Nat.zero_mul, Nat.zero_add]
    exact Nat.mod_eq_of_lt (bytesVal_lt bs hbytes)
  exact readAll_bytesVal bs (pushAll c bs) hbytes (by rw [h2, hcount, Nat.zero_add]) hval

/-- Witness for C8: the six bytes `0x12 0x34 0x44 0x89 0xAA 0x55` round-trip
through the FIFO of the empty controller `diskC8`. -/
theorem fifo_roundtrip_witness :
    ([0x12, 0x34, 0x44, 0x89, 0xAA, 0x55] : List Nat).length ≤ 6 ∧
    (∀ b ∈ ([0x12, 0x34, 0x44, 0x89, 0xAA, 0x55] : List Nat), b < 256) ∧
    diskC8.fifo = 0 ∧ diskC8.fifoCount = 0 ∧
    (readAll (pushAll diskC8 [0x12, 0x34, 0x44, 0x89, 0xAA, 0x55])
        ([0x12, 0x34, 0x44, 0x89, 0xAA, 0x55] : List Nat).length).1 =
      [0x12, 0x34, 0x44, 0x89, 0xAA, 0x55] ∧
    (readAll (pushAll diskC8 [0x12, 0x34, 0x44, 0x89, 0xAA, 0x55])
        ([0x12, 0x34, 0x44, 0x89, 0xAA, 0x55] : List Nat).length).2.fifoCount = 0 :=
  ⟨by decide, by decide, rfl, rfl,
   (fifo_roundtrip diskC8 [0x12, 0x34, 0x44, 0x89, 0xAA, 0x55]
     (by decide) (by decide) rfl rfl).1,
   (fifo_roundtrip diskC8 [0x12, 0x34, 0x44, 0x89, 0xAA, 0x55]
     (by decide) (by decide) rfl rfl).2⟩
